import Mathlib

/-
  Shallow embedding of the Quality-Control repository.

  Source files:
    src/memoized_outlier_detector.py  (OutlierDetector, byFrameGeneratorFactory,
                                       InterquartileVarianceAlgorithm, is_outlier)
    src/FUC_flagging.py               (FUC_curve_generator, FUC_tests, qc_FUC_timeseries)

  Modelling conventions:
  * numpy float values are modelled as `Option ℚ`: `none` is the NaN / missing
    sentinel, `some q` a finite value.  All arithmetic the detector performs on
    finite values (percentile interpolation, |q75-q25|/1.35, comparisons) is
    exact rational arithmetic.
  * a 2-D numpy array is a `List` of rows, each row a `List` of cells.
  * Python slices `a[i:j]` with non-negative bounds are `(List.take j).drop i`;
    negative start `a[-k:]` is `List.drop (len - k)` (truncated ℕ subtraction
    clamps exactly like Python's clamping of negative indices).
  * the `while True` loop of `OutlierDetector.outliers` is modelled with an
    explicit fuel parameter returning `Option`: `none` means the loop did not
    finish within `fuel` sweeps.  Termination claims become statements that a
    specific amount of fuel is always sufficient.
  * the standard `+ - * /` of `ℚ` are irreducible to the kernel, so the
    embedding computes with the helpers `qadd qsub qmul qdiv qabs` below,
    written over `Rat.divInt`, and each is proved equal to the corresponding
    standard operation (`qadd_eq` …), so the two presentations are
    interchangeable in statements.
-/

namespace QualityControl

/-- Rational addition through `Rat.divInt` (kernel-computable; equals `a + b`). -/
def qadd (a b : ℚ) : ℚ := Rat.divInt (a.num * b.den + b.num * a.den) (a.den * b.den)

/-- Rational subtraction through `Rat.divInt` (kernel-computable; equals `a - b`). -/
def qsub (a b : ℚ) : ℚ := Rat.divInt (a.num * b.den - b.num * a.den) (a.den * b.den)

/-- Rational multiplication through `Rat.divInt` (kernel-computable; equals `a * b`). -/
def qmul (a b : ℚ) : ℚ := Rat.divInt (a.num * b.num) (a.den * b.den)

/-- Rational division through `Rat.divInt` (kernel-computable; equals `a / b`). -/
def qdiv (a b : ℚ) : ℚ := Rat.divInt (a.num * b.den) (a.den * b.num)

/-- Absolute value through `Rat.divInt` (kernel-computable; equals `|a|`). -/
def qabs (a : ℚ) : ℚ := Rat.divInt |a.num| a.den

/-- Floor of a rational as `Int.fdiv num den` (kernel-computable). -/
def qfloor (a : ℚ) : ℤ := Int.fdiv a.num a.den

/-- A matrix cell: `none` models numpy NaN (the missing-value sentinel). -/
abbrev Cell := Option ℚ

/-- A data matrix: list of rows, each row a list of cells. -/
abbrev Mat := List (List Cell)

/-- Number of non-missing values: `sum(~np.isnan(col))` in the source. -/
def nonMissingCount (col : List Cell) : ℕ :=
  col.countP (fun v => v.isSome)

/-- The non-missing values of a column, in order. -/
def nanValues (col : List Cell) : List ℚ :=
  col.filterMap id

/-- `np.nanpercentile(col, q)` with numpy's default linear interpolation:
sort the non-NaN values, take the virtual index `(n-1)*q/100`, and
interpolate linearly between its floor and the next entry.  Returns `none`
(NaN) when every value is missing. -/
def nanpercentile (col : List Cell) (q : ℚ) : Cell :=
  let s := List.insertionSort (fun a b : ℚ => a ≤ b) (nanValues col)
  if s.length = 0 then none
  else
    let pos : ℚ := qdiv (qmul (Rat.divInt (s.length - 1 : ℕ) 1) q) 100
    let i : ℕ := (qfloor pos).toNat
    let frac : ℚ := qsub pos (Rat.divInt i 1)
    some (qadd (s.getD i 0) (qmul frac (qsub (s.getD (i + 1) 0) (s.getD i 0))))

/-- `np.nanmedian(col)`: the 50th percentile of the non-missing values. -/
def nanmedian (col : List Cell) : Cell :=
  nanpercentile col 50

/-- One of the two guarded quartiles of `is_outlier`:
`np.nanpercentile(col, q) if sum(~np.isnan(col)) >= min_num_points else nan`. -/
def quartile (col : List Cell) (min_num_points : ℕ) (q : ℚ) : Cell :=
  if min_num_points ≤ nonMissingCount col then nanpercentile col q else none

/-- `iqr_stdev = abs(q75 - q25) / 1.35` when both quartiles are defined,
NaN otherwise (`1.35 = 27/20`). -/
def iqrStdev (col : List Cell) (min_num_points : ℕ) : Cell :=
  match quartile col min_num_points 75, quartile col min_num_points 25 with
  | some q75, some q25 => some (qdiv (qabs (qsub q75 q25)) (Rat.divInt 27 20))
  | _, _ => none

/-- `cut_off = iqr_stdev * std_dev_limit` (NaN propagates). -/
def cutoffOf (col : List Cell) (std_dev_limit : ℚ) (min_num_points : ℕ) : Cell :=
  (iqrStdev col min_num_points).map (fun s => qmul s std_dev_limit)

/-- The chained comparison `med - cut_off < data_point < med + cut_off`.
Any NaN operand makes a Python float comparison false, hence `false` here
whenever an operand is missing. -/
def inBandB : Cell → Cell → Cell → Bool
  | some med, some c, some x => decide (qsub med c < x) && decide (x < qadd med c)
  | _, _, _ => false

/-- `is_outlier(col, data_point, std_dev_limit, min_num_points)` from
src/memoized_outlier_detector.py: returns `False` when `cut_off` is NaN, or
`data_point` is NaN, or the point lies strictly inside the band
`median ± cut_off`; returns `True` otherwise. -/
def is_outlier (col : List Cell) (data_point : Cell) (std_dev_limit : ℚ)
    (min_num_points : ℕ) : Bool :=
  let cut_off := cutoffOf col std_dev_limit min_num_points
  if cut_off.isNone || data_point.isNone || inBandB (nanmedian col) cut_off data_point
  then false else true

/-- `byFrameGeneratorFactory.generator`, one yielded window.  `frame` is the
half-width (`math.ceil` of the constructor argument; a natural number here).
The three branches are the source's three slices; truncated ℕ subtraction in
`drop` reproduces Python's clamping of negative slice bounds. -/
def windowAt (frame : ℕ) (data : Mat) (idx : ℕ) : Mat :=
  if frame ≤ idx ∧ idx < data.length - frame then
    (data.drop (idx - frame)).take (2 * frame + 1)
  else if idx < frame then
    data.take (2 * frame + 1)
  else
    data.drop (data.length - (2 * frame + 1))

/-- The full sequence of windows the generator yields: one per row index. -/
def windows (frame : ℕ) (data : Mat) : List Mat :=
  (List.range data.length).map (windowAt frame data)

/-- Column `i` of a window: `frame[:, i]`. -/
def frameCol (w : Mat) (i : ℕ) : List Cell :=
  w.map (fun row => row.getD i none)

/-- `new_num_missing_data`: per column of the window, the count of non-NaN
entries (`[sum(~np.isnan(frame[:, i])) for i in range(frame.shape[1])]`;
despite the Python variable's name it counts the non-missing entries). -/
def newCountsRow (w : Mat) : List ℕ :=
  (List.range (w.headD []).length).map (fun i => nonMissingCount (frameCol w i))

/-- `row_outliers` of one sweep row: skip (`False`) when the non-missing
count is unchanged from the cache, else run `is_outlier`. -/
def sweepRowMask (limit : ℚ) (m : ℕ) (w : Mat) (dataRow : List Cell)
    (cacheRow : List ℕ) : List Bool :=
  (List.range (w.headD []).length).map (fun i =>
    if nonMissingCount (frameCol w i) ≠ cacheRow.getD i 0 then
      is_outlier (frameCol w i) (dataRow.getD i none) limit m
    else false)

/-- `InterquartileVarianceAlgorithm.outliers`: one sweep over the matrix.
Returns the sweep's boolean mask and the updated memoization cache.
`min_num_points = min(2*span+1, self._min_num_points)`.  The cache row is
written only when it differs (`np.array_equal` guard), which leaves the same
final value as always writing. -/
def sweepMatrix (limit : ℚ) (cfgMin frame : ℕ) (data : Mat)
    (cache : List (List ℕ)) : List (List Bool) × List (List ℕ) :=
  let m := min (2 * frame + 1) cfgMin
  ((List.range data.length).map (fun r =>
      sweepRowMask limit m (windowAt frame data r) (data.getD r []) (cache.getD r [])),
   (List.range data.length).map (fun r =>
      let nc := newCountsRow (windowAt frame data r)
      if cache.getD r [] = nc then cache.getD r [] else nc))

/-- `data[mask] = nan` on one row: masked cells become missing.  A missing
mask suffix (never produced by the detector, whose masks match the data
shape) leaves cells unchanged, so the operation is shape-preserving. -/
def maskRow : List Cell → List Bool → List Cell
  | [], _ => []
  | v :: vs, [] => v :: vs
  | v :: vs, b :: bs => (if b then none else v) :: maskRow vs bs

/-- `data[outlier_truth_matrix] = float('nan')`. -/
def setNaN : Mat → List (List Bool) → Mat
  | [], _ => []
  | row :: rs, [] => row :: rs
  | row :: rs, mrow :: ms => maskRow row mrow :: setNaN rs ms

/-- `outliers += outlier_truth_matrix` on one row (float accumulation of a
boolean mask, as exact naturals). -/
def addRow : List ℕ → List Bool → List ℕ
  | [], _ => []
  | a :: la, [] => a :: la
  | a :: la, b :: lb => (a + if b then 1 else 0) :: addRow la lb

/-- `outliers += outlier_truth_matrix` on the whole accumulator. -/
def addMask : List (List ℕ) → List (List Bool) → List (List ℕ)
  | [], _ => []
  | row :: rs, [] => row :: rs
  | row :: rs, mrow :: ms => addRow row mrow :: addMask rs ms

/-- `outliers.astype(bool)`: a cell was flagged when its count is non-zero. -/
def toBoolMask (acc : List (List ℕ)) : List (List Bool) :=
  acc.map (fun row => row.map (fun n => n != 0))

/-- `np.sum(outlier_truth_matrix)` over booleans: the number of `True`s. -/
def sumMask (mask : List (List Bool)) : ℕ :=
  (mask.map (fun row => row.countP (fun b => b))).sum

/-- `np.zeros(data.shape)`, used both for the cache and the accumulator. -/
def zerosLike (data : Mat) : List (List ℕ) :=
  data.map (fun row => row.map (fun _ => 0))

/-- The sweep loop of `OutlierDetector.outliers`.  `capped = false` models the
`while True` branch (`num_of_iterations is None`), where exhausting the fuel
returns `none` (the modelled loop did not finish within `fuel` sweeps);
`capped = true` models the `for _ in range(n)` branch with `fuel = n`, where
exhausting the fuel returns the accumulator, as the source does.  Returns the
accumulated mask counts together with the final state of the `data` array —
which in the source is the caller's own array when the input was 2-D. -/
def loop (limit : ℚ) (cfgMin frame : ℕ) (capped : Bool) :
    ℕ → Mat → List (List ℕ) → List (List ℕ) → Option (List (List ℕ) × Mat)
  | 0, data, _cache, acc => if capped then some (acc, data) else none
  | fuel + 1, data, cache, acc =>
    if sumMask (sweepMatrix limit cfgMin frame data cache).1 = 0 then
      some (addMask acc (sweepMatrix limit cfgMin frame data cache).1, data)
    else
      loop limit cfgMin frame capped fuel
        (setNaN data (sweepMatrix limit cfgMin frame data cache).1)
        (sweepMatrix limit cfgMin frame data cache).2
        (addMask acc (sweepMatrix limit cfgMin frame data cache).1)

/-- `np.reshape(np.array(data), (-1, 1))`: a 1-D series as one column. -/
def reshape1 (series : List Cell) : Mat :=
  series.map (fun v => [v])

/-- `OutlierDetector.outliers` on an already 2-D input: the boolean result
mask together with the final state of the caller's `data` array.  `fuel` is
only consulted on the uncapped (`numIter = none`) branch. -/
def detect (limit : ℚ) (cfgMin frame : ℕ) (data : Mat) (numIter : Option ℕ)
    (fuel : ℕ) : Option (List (List Bool) × Mat) :=
  match numIter with
  | none =>
    (loop limit cfgMin frame false fuel data (zerosLike data) (zerosLike data)).map
      (fun p => (toBoolMask p.1, p.2))
  | some n =>
    (loop limit cfgMin frame true n data (zerosLike data) (zerosLike data)).map
      (fun p => (toBoolMask p.1, p.2))

/-- Total number of non-missing cells of the working matrix. -/
def totalCount (data : Mat) : ℕ :=
  (data.map nonMissingCount).sum

/-
  src/FUC_flagging.py.  Timestamps are modelled as `ℤ` (datetimes compared
  through differences against a `timedelta`), xCO2 values as `ℝ`; `np.mean`
  and `np.std` of an empty slice are NaN in numpy, modelled as `none`, and a
  comparison against NaN is false.
-/

/-- `np.mean` over the values of a slice; NaN (`none`) on an empty slice. -/
noncomputable def npMean (l : List ℝ) : Option ℝ :=
  if l.length = 0 then none else some (l.sum / l.length)

/-- `np.std` (population standard deviation); NaN (`none`) on an empty slice. -/
noncomputable def npStd (l : List ℝ) : Option ℝ :=
  (npMean l).map (fun m => Real.sqrt ((l.map (fun x => (x - m) ^ 2)).sum / l.length))

/-- Python slice `l[-a:-b]` for positive `a`, `b`: truncated ℕ subtraction
reproduces Python's clamping of out-of-range negative indices. -/
def pySliceNeg {α : Type} (l : List α) (a b : ℕ) : List α :=
  (l.take (l.length - b)).drop (l.length - a)

/-- `FUC_tests` from src/FUC_flagging.py: a curve is flagged bad (`true`) when
it has fewer than `min_num_points` points, or the mean of `curve[-8:-3]` is
farther than `max_diff_from_span` from `span_co2`, or the standard deviation
of `curve[-8:-3]` exceeds `max_st_dev`; otherwise good (`false`).  An empty
`[-8:-3]` slice gives NaN statistics, whose comparisons are false. -/
noncomputable def FUC_tests (FUC_curve : List ℝ) (span_co2 : ℝ)
    (min_num_points : ℕ) (max_diff_from_span max_st_dev : ℝ) : Bool :=
  if FUC_curve.length < min_num_points then true
  else
    match npMean (pySliceNeg FUC_curve 8 3), npStd (pySliceNeg FUC_curve 8 3) with
    | some m, some sd =>
      if |span_co2 - m| > max_diff_from_span then true
      else if sd > max_st_dev then true
      else false
    | _, _ => false

/-- `FUC_curve_generator` body: `i` is the lagging frame, `j` the leading one;
a gap larger than `gap` between consecutive timestamps closes the current
curve `(i, j-1)` (suppressed once when `ignoreFirst`), and the final
`(i, j-1)` is always yielded at loop exit.  One fuel unit is one loop
iteration; the wrapper's fuel `ts.length` always suffices because `j` starts
at 1 and increases by one each iteration. -/
def FUC_curves_aux (ts : List ℤ) (gap : ℤ) : ℕ → ℕ → ℕ → Bool → List (ℕ × ℕ)
  | 0, i, j, _ => [(i, j - 1)]
  | fuel + 1, i, j, ignoreFirst =>
    if j < ts.length then
      if |ts.getD j 0 - ts.getD (j - 1) 0| > gap then
        if ignoreFirst then FUC_curves_aux ts gap fuel j (j + 1) false
        else (i, j - 1) :: FUC_curves_aux ts gap fuel j (j + 1) ignoreFirst
      else FUC_curves_aux ts gap fuel i (j + 1) ignoreFirst
    else [(i, j - 1)]

/-- `FUC_curve_generator(FUC_data, min_time_breakpoint, ignoreFirst)`: the
list of inclusive index ranges `(start, end)` of the identified curves. -/
def FUC_curve_generator (ts : List ℤ) (gap : ℤ) (ignoreFirst : Bool) : List (ℕ × ℕ) :=
  FUC_curves_aux ts gap ts.length 0 1 ignoreFirst

/-- `qc_FUC_timeseries`: one `[timestamp, flag]` entry per identified curve;
the flag is `FUC_tests` on the value-column slice
`FUC_time_series[curve_start:curve_end, 1]`, with `curve_end` widened by one
when the curve is a single point. -/
noncomputable def qc_FUC_timeseries (series : List (ℤ × ℝ)) (gap : ℤ) (span_co2 : ℝ)
    (min_num_points : ℕ) (max_diff_from_span max_st_dev : ℝ) (ignoreFirst : Bool) :
    List (ℤ × Bool) :=
  (FUC_curve_generator (series.map Prod.fst) gap ignoreFirst).map (fun p =>
    ((series.map Prod.fst).getD p.1 0,
      FUC_tests
        (((series.map Prod.snd).take (if p.2 - p.1 = 0 then p.2 + 1 else p.2)).drop p.1)
        span_co2 min_num_points max_diff_from_span max_st_dev))

theorem qadd_eq (a b : ℚ) : qadd a b = a + b := by
  rw [qadd]
  conv_rhs => rw [← Rat.num_divInt_den a, ← Rat.num_divInt_den b,
    Rat.divInt_add_divInt _ _ (Int.natCast_ne_zero.mpr a.den_nz)
      (Int.natCast_ne_zero.mpr b.den_nz)]

theorem qsub_eq (a b : ℚ) : qsub a b = a - b := by
  rw [qsub]
  conv_rhs => rw [← Rat.num_divInt_den a, ← Rat.num_divInt_den b,
    Rat.divInt_sub_divInt _ _ (Int.natCast_ne_zero.mpr a.den_nz)
      (Int.natCast_ne_zero.mpr b.den_nz)]

theorem qmul_eq (a b : ℚ) : qmul a b = a * b := by
  rw [qmul]
  conv_rhs => rw [← Rat.num_divInt_den a, ← Rat.num_divInt_den b, Rat.divInt_mul_divInt']

theorem qdiv_eq (a b : ℚ) : qdiv a b = a / b := by
  rw [qdiv]
  conv_rhs => rw [div_eq_mul_inv, ← Rat.num_divInt_den a, ← Rat.num_divInt_den b,
    Rat.inv_divInt', Rat.divInt_mul_divInt']

theorem qabs_eq (a : ℚ) : qabs a = |a| := by
  rw [qabs]
  rcases le_or_lt 0 a.num with h | h
  · rw [abs_of_nonneg h, Rat.num_divInt_den, abs_of_nonneg (Rat.num_nonneg.mp h)]
  · have ha : a < 0 := lt_of_not_le (fun hc => absurd (Rat.num_nonneg.mpr hc) (not_le.mpr h))
    rw [abs_of_neg h, ← Rat.neg_def, abs_of_neg ha]

-- Small sanity checks of the embedding on concrete data.
example : nanpercentile [some 0, some 1, some 2, some 3, some 4] 25 = some 1 := by decide

example : nanpercentile [some 0, some 1, some 2, some 3, some 4] 75 = some 3 := by decide

example : nanmedian [some 0, some 1, some 2, some 3] = some (Rat.divInt 3 2) := by decide

example : cutoffOf [some 0, some 1, some 2, some 3, some 4] 1 1 = some (Rat.divInt 40 27) := by
  decide

example : is_outlier [some 5] (some 5) 5 1 = true := by decide

/-- Element `r` of `(List.range n).map f` under `getD`. -/
theorem getD_map_range {α : Type} (f : ℕ → α) {n r : ℕ} (h : r < n) (d : α) :
    ((List.range n).map f).getD r d = f r := by
  rw [List.getD_eq_getElem?_getD, List.getElem?_map, List.getElem?_range h]
  rfl

/-- `is_outlier` can only answer `true` on a non-missing data point. -/
theorem is_outlier_true_isSome {col : List Cell} {p : Cell} {k : ℚ} {m : ℕ}
    (h : is_outlier col p k m = true) : p.isSome := by
  by_contra hns
  have hpn : p = none := by
    cases p with
    | none => rfl
    | some x => simp at hns
  rw [is_outlier, hpn] at h
  simp at h

/-- C1 (counterexample): the claim says an undefined cutoff (here: a window
with 0 non-missing values, fewer than the threshold m = 1) makes `is_outlier`
return `true`; the source returns `false`. -/
theorem c1_counterexample :
    cutoffOf [none] 5 1 = none ∧ is_outlier [none] (some 0) 5 1 = false := by
  decide

/-- C1 (amended): whenever the cutoff is undefined (e.g. fewer than
`min_num_points` non-missing values in the window) or the tested value is
itself missing, `is_outlier` returns `false` (not an outlier) — matching the
source's docstring "Not enough data results in a False output". -/
theorem c1_amended (col : List Cell) (p : Cell) (k : ℚ) (m : ℕ)
    (h : cutoffOf col k m = none ∨ p = none) :
    is_outlier col p k m = false := by
  rw [is_outlier]
  rcases h with h | h <;> rw [h]
  · simp [inBandB]
  · cases cutoffOf col k m <;> cases nanmedian col <;> simp [inBandB]

/-- C1 amended witness: a window of 3 missing values with threshold 2 has an
undefined cutoff and the tested value 7 is reported as not an outlier. -/
theorem c1_amended_witness :
    cutoffOf [none, none, none] 5 2 = none ∧
      is_outlier [none, none, none] (some 7) 5 2 = false :=
  ⟨by decide, c1_amended [none, none, none] (some 7) 5 2 (Or.inl (by decide))⟩

/-- C6: when the cutoff and the tested value are both defined, a value exactly
equal to `median ± cutoff` is classified an outlier, and the result is `false`
exactly when the value lies strictly between `median - cutoff` and
`median + cutoff`. -/
theorem c6_boundary_semantics (col : List Cell) (x med c : ℚ) (k : ℚ) (m : ℕ)
    (hc : cutoffOf col k m = some c) (hmed : nanmedian col = some med) :
    ((x = med - c ∨ x = med + c) → is_outlier col (some x) k m = true) ∧
      (is_outlier col (some x) k m = false ↔ (med - c < x ∧ x < med + c)) := by
  rw [is_outlier, hc, hmed]
  have hband : inBandB (some med) (some c) (some x)
      = (decide (med - c < x) && decide (x < med + c)) := by
    rw [inBandB, qsub_eq, qadd_eq]
  rw [hband]
  constructor
  · rintro (rfl | rfl) <;> simp
  · simp

/-- C6 witness: window `[0,1,2,3,4]` with k = 1, m = 1 has median 2 and cutoff
40/27; the boundary value 2 - 40/27 = 14/27 is flagged, the centre value 2 is
strictly inside the band and is not flagged. -/
theorem c6_boundary_semantics_witness :
    is_outlier [some 0, some 1, some 2, some 3, some 4] (some (Rat.divInt 14 27)) 1 1 = true ∧
      is_outlier [some 0, some 1, some 2, some 3, some 4] (some 2) 1 1 = false :=
  ⟨(c6_boundary_semantics [some 0, some 1, some 2, some 3, some 4] (Rat.divInt 14 27) 2
      (Rat.divInt 40 27) 1 1 (by decide) (by decide)).1 (Or.inl (by norm_num [Rat.divInt_eq_div])),
   (c6_boundary_semantics [some 0, some 1, some 2, some 3, some 4] 2 2
      (Rat.divInt 40 27) 1 1 (by decide) (by decide)).2.mpr
     (by norm_num [Rat.divInt_eq_div])⟩

/-- C5: for a matrix with at least `2*frame+1` rows the generator yields one
window per row index; each window has exactly `2*frame+1` rows; in the
centred region the window rows are `data[idx-frame .. idx+frame]`; for
`idx < frame` the window is the first `2*frame+1` rows and for
`idx ≥ rows-frame` the last `2*frame+1` rows (hence constant on those
sub-ranges). -/
theorem c5_window_generation (frame : ℕ) (data : Mat)
    (hlen : 2 * frame + 1 ≤ data.length) :
    (windows frame data).length = data.length ∧
      ∀ i, i < data.length →
        ((windows frame data).getD i []).length = 2 * frame + 1 ∧
        (frame ≤ i → i < data.length - frame →
          ∀ j, j < 2 * frame + 1 →
            ((windows frame data).getD i []).getD j [] = data.getD (i - frame + j) []) ∧
        (i < frame → (windows frame data).getD i [] = data.take (2 * frame + 1)) ∧
        (data.length - frame ≤ i →
          (windows frame data).getD i [] = data.drop (data.length - (2 * frame + 1))) := by
  constructor
  · simp [windows]
  · intro i hi
    have hw : (windows frame data).getD i [] = windowAt frame data i :=
      getD_map_range _ hi []
    rw [hw]
    refine ⟨?_, ?_, ?_, ?_⟩
    · rw [windowAt]
      by_cases h1 : frame ≤ i ∧ i < data.length - frame
      · rw [if_pos h1, List.length_take, List.length_drop]
        omega
      · rw [if_neg h1]
        by_cases h2 : i < frame
        · rw [if_pos h2, List.length_take]
          omega
        · rw [if_neg h2, List.length_drop]
          omega
    · intro hf1 hf2 j hj
      rw [windowAt, if_pos ⟨hf1, hf2⟩, List.getD_eq_getElem?_getD, List.getElem?_take,
        if_pos hj, List.getElem?_drop, ← List.getD_eq_getElem?_getD]
    · intro h2
      rw [windowAt, if_neg (by omega), if_pos h2]
    · intro h3
      rw [windowAt, if_neg (by omega), if_neg (by omega)]

/-- C5 witness: for half-width 1 and a concrete 4-row single-column matrix,
the generator yields one window per row. -/
theorem c5_window_generation_witness :
    (windows 1 [[some 0], [some 1], [some 2], [some 3]]).length
      = ([[some 0], [some 1], [some 2], [some 3]] : Mat).length :=
  (c5_window_generation 1 [[some 0], [some 1], [some 2], [some 3]] (by decide)).1

/-- C9: the claim says a series shorter than `2*frame+1` rows makes window
generation fail fast with a precondition error; the source raises nothing:
on a 1-row matrix with half-width 1 it happily yields one window, namely the
whole (1-row, hence malformed, smaller than `2*frame+1`) matrix, because the
Python slices clamp. -/
theorem c9_undersized_series_yields_windows :
    windows 1 [[some 1]] = [[[some 1]]] ∧
      ([[some 1]] : Mat).length < 2 * 1 + 1 := by
  decide

/-- A window of a non-empty matrix is non-empty. -/
theorem windowAt_ne_nil (frame : ℕ) (data : Mat) (r : ℕ) (hr : r < data.length) :
    windowAt frame data r ≠ [] := by
  rw [← List.length_pos, windowAt]
  by_cases h1 : frame ≤ r ∧ r < data.length - frame
  · rw [if_pos h1, List.length_take, List.length_drop]
    omega
  · rw [if_neg h1]
    by_cases h2 : r < frame
    · rw [if_pos h2, List.length_take]
      omega
    · rw [if_neg h2, List.length_drop]
      omega

/-- Every row of a window is a row of the matrix. -/
theorem windowAt_rows_mem (frame : ℕ) (data : Mat) (r : ℕ) :
    ∀ row ∈ windowAt frame data r, row ∈ data := by
  intro row hrow
  rw [windowAt] at hrow
  by_cases h1 : frame ≤ r ∧ r < data.length - frame
  · rw [if_pos h1] at hrow
    exact List.drop_subset _ _ (List.take_subset _ _ hrow)
  · rw [if_neg h1] at hrow
    by_cases h2 : r < frame
    · rw [if_pos h2] at hrow
      exact List.take_subset _ _ hrow
    · rw [if_neg h2] at hrow
      exact List.drop_subset _ _ hrow

/-- Under a uniform column count, each window has that column count too. -/
theorem windowAt_head_length (frame : ℕ) (data : Mat) {C r : ℕ}
    (hwf : ∀ row ∈ data, row.length = C) (hr : r < data.length) :
    ((windowAt frame data r).headD []).length = C := by
  have hne := windowAt_ne_nil frame data r hr
  have hmem : (windowAt frame data r).headD [] ∈ windowAt frame data r := by
    cases h : windowAt frame data r with
    | nil => exact absurd h hne
    | cons a l => simp
  exact hwf _ (windowAt_rows_mem frame data r _ hmem)

/-- C3: in one sweep, a cell whose window non-missing count equals the cached
count contributes `false` (skip) to the sweep mask; a cell whose count
changed contributes `is_outlier(window column, data[r][c], stdevLimit,
min(2*span+1, configuredMinNumPoints))`; and either way the updated cache
holds the new count. -/
theorem c3_sweep_memoization (limit : ℚ) (cfgMin frame : ℕ) (data : Mat)
    (cache : List (List ℕ)) (C r c : ℕ)
    (hwf : ∀ row ∈ data, row.length = C) (hr : r < data.length) (hc : c < C) :
    (nonMissingCount (frameCol (windowAt frame data r) c) = (cache.getD r []).getD c 0 →
      ((sweepMatrix limit cfgMin frame data cache).1.getD r []).getD c false = false) ∧
    (nonMissingCount (frameCol (windowAt frame data r) c) ≠ (cache.getD r []).getD c 0 →
      ((sweepMatrix limit cfgMin frame data cache).1.getD r []).getD c false =
        is_outlier (frameCol (windowAt frame data r) c) ((data.getD r []).getD c none)
          limit (min (2 * frame + 1) cfgMin)) ∧
    ((sweepMatrix limit cfgMin frame data cache).2.getD r []).getD c 0 =
      nonMissingCount (frameCol (windowAt frame data r) c) := by
  have hcw : c < ((windowAt frame data r).headD []).length := by
    rw [windowAt_head_length frame data hwf hr]
    exact hc
  have hmask : (sweepMatrix limit cfgMin frame data cache).1.getD r [] =
      sweepRowMask limit (min (2 * frame + 1) cfgMin) (windowAt frame data r)
        (data.getD r []) (cache.getD r []) := by
    rw [sweepMatrix]
    exact getD_map_range _ hr []
  have hcell : (sweepRowMask limit (min (2 * frame + 1) cfgMin) (windowAt frame data r)
      (data.getD r []) (cache.getD r [])).getD c false =
      (if nonMissingCount (frameCol (windowAt frame data r) c)
          ≠ (cache.getD r []).getD c 0 then
        is_outlier (frameCol (windowAt frame data r) c) ((data.getD r []).getD c none)
          limit (min (2 * frame + 1) cfgMin)
      else false) := by
    rw [sweepRowMask]
    exact getD_map_range _ hcw false
  have hcache : (sweepMatrix limit cfgMin frame data cache).2.getD r []
      = (if cache.getD r [] = newCountsRow (windowAt frame data r)
          then cache.getD r [] else newCountsRow (windowAt frame data r)) := by
    rw [sweepMatrix]
    exact getD_map_range _ hr []
  have hcacheval : (sweepMatrix limit cfgMin frame data cache).2.getD r []
      = newCountsRow (windowAt frame data r) := by
    rw [hcache]
    by_cases he : cache.getD r [] = newCountsRow (windowAt frame data r)
    · rw [if_pos he, he]
    · rw [if_neg he]
  refine ⟨?_, ?_, ?_⟩
  · intro hskip
    rw [hmask, hcell, if_neg (by omega)]
  · intro hchg
    rw [hmask, hcell, if_pos hchg]
  · rw [hcacheval, newCountsRow]
    exact getD_map_range _ hcw 0

/-- C3 witness: a concrete 1-by-1 matrix, zero cache and half-width 0: after
the sweep the cache holds the window's non-missing count. -/
theorem c3_sweep_memoization_witness :
    ((sweepMatrix 5 20 0 [[some 5]] [[0]]).2.getD 0 []).getD 0 0 =
      nonMissingCount (frameCol (windowAt 0 [[some 5]] 0) 0) :=
  (c3_sweep_memoization 5 20 0 [[some 5]] [[0]] 1 0 0 (by decide) (by decide)
    (by decide)).2.2

theorem addRow_length (arow : List ℕ) : ∀ mrow, (addRow arow mrow).length = arow.length := by
  induction arow with
  | nil => intro mrow; rfl
  | cons a la ih =>
    intro mrow
    cases mrow with
    | nil => rfl
    | cons b lb => simp [addRow, ih lb]

theorem addMask_shape (acc : List (List ℕ)) :
    ∀ mask, (addMask acc mask).map List.length = acc.map List.length := by
  induction acc with
  | nil => intro mask; rfl
  | cons row rs ih =>
    intro mask
    cases mask with
    | nil => rfl
    | cons mrow ms => simp [addMask, addRow_length, ih ms]

theorem addRow_all_false (arow : List ℕ) :
    ∀ mrow, mrow.countP (fun b => b) = 0 → addRow arow mrow = arow := by
  induction arow with
  | nil => intro mrow _; rfl
  | cons a la ih =>
    intro mrow h
    cases mrow with
    | nil => rfl
    | cons b lb =>
      rw [List.countP_cons] at h
      cases b with
      | false => simp [addRow, ih lb (by omega)]
      | true => simp at h

theorem addMask_zero_mask (acc : List (List ℕ)) :
    ∀ mask, sumMask mask = 0 → addMask acc mask = acc := by
  induction acc with
  | nil => intro mask _; rfl
  | cons row rs ih =>
    intro mask h
    cases mask with
    | nil => rfl
    | cons mrow ms =>
      rw [sumMask, List.map_cons, List.sum_cons] at h
      rw [addMask, addRow_all_false row mrow (by omega), ih ms (by
        rw [sumMask]; omega)]

theorem zerosLike_shape (data : Mat) :
    (zerosLike data).map List.length = data.map List.length := by
  rw [zerosLike, List.map_map]
  apply List.map_congr_left
  intro row _
  simp

theorem toBoolMask_shape (acc : List (List ℕ)) :
    (toBoolMask acc).map List.length = acc.map List.length := by
  rw [toBoolMask, List.map_map]
  apply List.map_congr_left
  intro row _
  simp

theorem maskRow_replicate_false (row : List Cell) :
    maskRow row (List.replicate row.length false) = row := by
  induction row with
  | nil => rfl
  | cons v vs ih => simp [maskRow, ih]

theorem setNaN_toBool_zeros (data : Mat) :
    setNaN data (toBoolMask (zerosLike data)) = data := by
  induction data with
  | nil => rfl
  | cons row rs ih =>
    rw [zerosLike, toBoolMask, List.map_cons, List.map_cons, setNaN]
    rw [zerosLike, toBoolMask] at ih
    rw [ih, List.map_map]
    have hfun : ((fun n => n != 0) ∘ fun _ => (0 : ℕ)) = fun _ : Cell => false := rfl
    rw [hfun]
    have hrow : (row.map (fun _ : Cell => false)) = List.replicate row.length false := by
      simp
    rw [hrow, maskRow_replicate_false]

theorem nonMissingCount_cons (v : Cell) (l : List Cell) :
    nonMissingCount (v :: l) = nonMissingCount l + (if v.isSome then 1 else 0) := by
  rw [nonMissingCount, nonMissingCount, List.countP_cons]

theorem maskRow_count_le (row : List Cell) :
    ∀ mrow, nonMissingCount (maskRow row mrow) ≤ nonMissingCount row := by
  induction row with
  | nil => intro mrow; exact le_refl _
  | cons v vs ih =>
    intro mrow
    cases mrow with
    | nil => exact le_refl _
    | cons b lb =>
      rw [maskRow, nonMissingCount_cons, nonMissingCount_cons]
      have hhead : (if (if b then (none : Cell) else v).isSome then 1 else 0)
          ≤ (if v.isSome then 1 else 0) := by
        cases b <;> simp
      have := ih lb
      omega

theorem maskRow_count_lt (c : ℕ) :
    ∀ (row : List Cell) (mrow : List Bool), mrow.getD c false = true →
      (row.getD c none).isSome →
      nonMissingCount (maskRow row mrow) < nonMissingCount row := by
  induction c with
  | zero =>
    intro row mrow hb hv
    cases row with
    | nil => simp [List.getD] at hv
    | cons v vs =>
      cases mrow with
      | nil => simp [List.getD] at hb
      | cons b lb =>
        rw [List.getD_cons_zero] at hb hv
        subst hb
        rw [maskRow, if_pos rfl, nonMissingCount_cons, nonMissingCount_cons]
        have hle := maskRow_count_le vs lb
        have h0 : (if (none : Cell).isSome then 1 else 0) = 0 := rfl
        rw [h0, if_pos hv]
        omega
  | succ c ih =>
    intro row mrow hb hv
    cases row with
    | nil => simp [List.getD] at hv
    | cons v vs =>
      cases mrow with
      | nil => simp [List.getD] at hb
      | cons b lb =>
        rw [List.getD_cons_succ] at hb hv
        have htail := ih vs lb hb hv
        rw [maskRow, nonMissingCount_cons, nonMissingCount_cons]
        have hhead : (if (if b then (none : Cell) else v).isSome then 1 else 0)
            ≤ (if v.isSome then 1 else 0) := by
          cases b <;> simp
        omega

theorem setNaN_totalCount_le (data : Mat) :
    ∀ mask, totalCount (setNaN data mask) ≤ totalCount data := by
  induction data with
  | nil => intro mask; exact le_refl _
  | cons row rs ih =>
    intro mask
    cases mask with
    | nil => exact le_refl _
    | cons mrow ms =>
      rw [setNaN, totalCount, List.map_cons, List.sum_cons, totalCount,
        List.map_cons, List.sum_cons]
      have h1 := maskRow_count_le row mrow
      have h2 : totalCount (setNaN rs ms) ≤ totalCount rs := ih ms
      rw [totalCount, totalCount] at h2
      omega

theorem setNaN_totalCount_lt (r : ℕ) :
    ∀ (data : Mat) (mask : List (List Bool)),
      (mask.getD r []).getD c false = true →
      ((data.getD r []).getD c none).isSome →
      totalCount (setNaN data mask) < totalCount data := by
  induction r with
  | zero =>
    intro data mask hb hv
    cases data with
    | nil => simp [List.getD] at hv
    | cons row rs =>
      cases mask with
      | nil => simp [List.getD] at hb
      | cons mrow ms =>
        rw [List.getD_cons_zero] at hb hv
        rw [setNaN, totalCount, List.map_cons, List.sum_cons, totalCount,
          List.map_cons, List.sum_cons]
        have h1 := maskRow_count_lt _ row mrow hb hv
        have h2 : totalCount (setNaN rs ms) ≤ totalCount rs := setNaN_totalCount_le rs ms
        rw [totalCount, totalCount] at h2
        omega
  | succ r ih =>
    intro data mask hb hv
    cases data with
    | nil => simp [List.getD] at hv
    | cons row rs =>
      cases mask with
      | nil => simp [List.getD] at hb
      | cons mrow ms =>
        rw [List.getD_cons_succ] at hb hv
        rw [setNaN, totalCount, List.map_cons, List.sum_cons, totalCount,
          List.map_cons, List.sum_cons]
        have h1 := maskRow_count_le row mrow
        have h2 := ih rs ms hb hv
        rw [totalCount, totalCount] at h2
        omega

theorem countP_id_ne_zero {row : List Bool} (h : row.countP (fun b => b) ≠ 0) :
    ∃ c, row.getD c false = true := by
  induction row with
  | nil => simp [List.countP_nil] at h
  | cons b bs ih =>
    cases b with
    | true => exact ⟨0, by simp⟩
    | false =>
      rw [List.countP_cons] at h
      obtain ⟨c, hc⟩ := ih (by simp at h; simpa using h)
      exact ⟨c + 1, by simpa using hc⟩

theorem sumMask_ne_zero_exists {mask : List (List Bool)} (h : sumMask mask ≠ 0) :
    ∃ r c, (mask.getD r []).getD c false = true := by
  induction mask with
  | nil => simp [sumMask] at h
  | cons mrow ms ih =>
    rw [sumMask, List.map_cons, List.sum_cons] at h
    by_cases h0 : mrow.countP (fun b => b) = 0
    · rw [h0, Nat.zero_add] at h
      obtain ⟨r, c, hc⟩ := ih (by rw [sumMask]; exact h)
      exact ⟨r + 1, c, by simpa using hc⟩
    · obtain ⟨c, hc⟩ := countP_id_ne_zero h0
      exact ⟨0, c, by simpa using hc⟩

/-- A `true` cell of a sweep mask always sits on a non-missing value of the
working matrix: `is_outlier` answers `false` on a missing centre value. -/
theorem sweep_mask_true_isSome (limit : ℚ) (cfgMin frame : ℕ) (data : Mat)
    (cache : List (List ℕ)) (r c : ℕ)
    (h : ((sweepMatrix limit cfgMin frame data cache).1.getD r []).getD c false = true) :
    ((data.getD r []).getD c none).isSome := by
  by_cases hr : r < data.length
  · have hmask : (sweepMatrix limit cfgMin frame data cache).1.getD r [] =
        sweepRowMask limit (min (2 * frame + 1) cfgMin) (windowAt frame data r)
          (data.getD r []) (cache.getD r []) := by
      rw [sweepMatrix]
      exact getD_map_range _ hr []
    rw [hmask, sweepRowMask] at h
    by_cases hc : c < ((windowAt frame data r).headD []).length
    · rw [getD_map_range _ hc false] at h
      by_cases hne : nonMissingCount (frameCol (windowAt frame data r) c)
          ≠ (cache.getD r []).getD c 0
      · rw [if_pos hne] at h
        exact is_outlier_true_isSome h
      · rw [if_neg hne] at h
        exact absurd h (by simp)
    · exfalso
      have hnone : (List.range ((windowAt frame data r).headD []).length)[c]? = none :=
        List.getElem?_eq_none (by rw [List.length_range]; omega)
      rw [List.getD_eq_getElem?_getD, List.getElem?_map, hnone] at h
      simp at h
  · exfalso
    have hlen : (sweepMatrix limit cfgMin frame data cache).1.length = data.length := by
      rw [sweepMatrix]
      simp
    have hrow : (sweepMatrix limit cfgMin frame data cache).1.getD r [] = [] := by
      rw [List.getD_eq_getElem?_getD, List.getElem?_eq_none (by omega)]
      rfl
    rw [hrow] at h
    simp [List.getD] at h

/-- The uncapped loop finishes once the fuel exceeds the number of
non-missing cells: every sweep that recurses blanks at least one
previously non-missing cell. -/
theorem loop_isSome_of_fuel (limit : ℚ) (cfgMin frame : ℕ) :
    ∀ (fuel : ℕ) (data : Mat) (cache acc : List (List ℕ)), totalCount data < fuel →
      (loop limit cfgMin frame false fuel data cache acc).isSome := by
  intro fuel
  induction fuel with
  | zero => intro data cache acc h; exact absurd h (Nat.not_lt_zero _)
  | succ n ih =>
    intro data cache acc h
    rw [loop]
    by_cases hz : sumMask (sweepMatrix limit cfgMin frame data cache).1 = 0
    · simp [hz]
    · simp only [hz, if_neg, ite_false]
      apply ih
      obtain ⟨r, c, hc⟩ := sumMask_ne_zero_exists hz
      have hv := sweep_mask_true_isSome limit cfgMin frame data cache r c hc
      have hlt := setNaN_totalCount_lt r data _ hc hv
      omega

theorem totalCount_le_size (data : Mat) (C : ℕ)
    (hwf : ∀ row ∈ data, row.length = C) : totalCount data ≤ data.length * C := by
  induction data with
  | nil => simp [totalCount]
  | cons row rs ih =>
    rw [totalCount, List.map_cons, List.sum_cons]
    have h1 : nonMissingCount row ≤ C := by
      rw [← hwf row (by simp)]
      exact List.countP_le_length _
    have h2 := ih (fun r hr => hwf r (by simp [hr]))
    rw [totalCount] at h2
    rw [List.length_cons]
    calc nonMissingCount row + (rs.map nonMissingCount).sum
        ≤ C + rs.length * C := by omega
      _ = (rs.length + 1) * C := by ring

theorem maskRow_addRow (row : List Cell) :
    ∀ (arow : List ℕ) (mrow : List Bool), arow.length = row.length →
      maskRow (maskRow row (arow.map (fun n => n != 0))) mrow
        = maskRow row ((addRow arow mrow).map (fun n => n != 0)) := by
  induction row with
  | nil => intro arow mrow _; rfl
  | cons v vs ih =>
    intro arow mrow hlen
    cases arow with
    | nil => simp at hlen
    | cons a la =>
      cases mrow with
      | nil => simp [maskRow, addRow]
      | cons b lb =>
        have hlen' : la.length = vs.length := by simpa using hlen
        simp only [List.map_cons, maskRow, addRow]
        congr 1
        · cases b with
          | true =>
            have hne : ((a + 1) != 0) = true := by simp
            simp [hne]
          | false => simp
        · exact ih la lb hlen'

theorem setNaN_addMask (data : Mat) :
    ∀ (acc : List (List ℕ)) (mask : List (List Bool)),
      acc.map List.length = data.map List.length →
      setNaN (setNaN data (toBoolMask acc)) mask
        = setNaN data (toBoolMask (addMask acc mask)) := by
  induction data with
  | nil => intro acc mask _; rfl
  | cons row rs ih =>
    intro acc mask hsh
    cases acc with
    | nil => simp at hsh
    | cons arow ars =>
      cases mask with
      | nil => simp [toBoolMask, setNaN, addMask]
      | cons mrow ms =>
        simp only [List.map_cons, List.cons.injEq] at hsh
        simp only [toBoolMask, List.map_cons, setNaN, addMask]
        congr 1
        · exact maskRow_addRow row arow mrow hsh.1
        · have h := ih ars ms hsh.2
          simpa [toBoolMask] using h

/-- Invariant of the sweep loop: the accumulator keeps the input's shape and
the final `data` array equals the input with every accumulated flag blanked
to NaN. -/
theorem loop_final_data (limit : ℚ) (cfgMin frame : ℕ) (capped : Bool) :
    ∀ (fuel : ℕ) (data0 data : Mat) (cache acc accF : List (List ℕ)) (fin : Mat),
      acc.map List.length = data0.map List.length →
      data = setNaN data0 (toBoolMask acc) →
      loop limit cfgMin frame capped fuel data cache acc = some (accF, fin) →
      accF.map List.length = data0.map List.length ∧
        fin = setNaN data0 (toBoolMask accF) := by
  intro fuel
  induction fuel with
  | zero =>
    intro data0 data cache acc accF fin hsh hdata hloop
    rw [loop] at hloop
    cases capped with
    | false => simp at hloop
    | true =>
      rw [if_pos rfl, Option.some.injEq, Prod.mk.injEq] at hloop
      obtain ⟨h1, h2⟩ := hloop
      subst h1
      subst h2
      exact ⟨hsh, hdata⟩
  | succ n ih =>
    intro data0 data cache acc accF fin hsh hdata hloop
    rw [loop] at hloop
    by_cases hz : sumMask (sweepMatrix limit cfgMin frame data cache).1 = 0
    · rw [if_pos hz, Option.some.injEq, Prod.mk.injEq] at hloop
      obtain ⟨h1, h2⟩ := hloop
      rw [addMask_zero_mask acc _ hz] at h1
      subst h1
      subst h2
      exact ⟨hsh, hdata⟩
    · rw [if_neg hz] at hloop
      refine ih data0 _ _ _ accF fin ?_ ?_ hloop
      · rw [addMask_shape]
        exact hsh
      · rw [hdata, setNaN_addMask data0 acc _ hsh]

/-- Shape helper for C8: any successful `detect` returns a mask whose
row-length profile equals the input's. -/
theorem detect_shape (limit : ℚ) (cfgMin frame : ℕ) (data : Mat)
    (numIter : Option ℕ) (fuel : ℕ) (mask : List (List Bool)) (fin : Mat)
    (h : detect limit cfgMin frame data numIter fuel = some (mask, fin)) :
    mask.map List.length = data.map List.length := by
  cases numIter with
  | none =>
    rw [detect, Option.map_eq_some'] at h
    obtain ⟨⟨accF, finD⟩, hl, hf⟩ := h
    rw [Prod.mk.injEq] at hf
    obtain ⟨hm, _⟩ := hf
    have := loop_final_data limit cfgMin frame false fuel data data
      (zerosLike data) (zerosLike data) accF finD (zerosLike_shape data)
      (setNaN_toBool_zeros data).symm hl
    rw [← hm, toBoolMask_shape]
    exact this.1
  | some n =>
    rw [detect, Option.map_eq_some'] at h
    obtain ⟨⟨accF, finD⟩, hl, hf⟩ := h
    rw [Prod.mk.injEq] at hf
    obtain ⟨hm, _⟩ := hf
    have := loop_final_data limit cfgMin frame true n data data
      (zerosLike data) (zerosLike data) accF finD (zerosLike_shape data)
      (setNaN_toBool_zeros data).symm hl
    rw [← hm, toBoolMask_shape]
    exact this.1

/-- C2 (counterexample): the claim says `detect` never observably mutates the
caller's matrix; on the 2-D input `[[5]]` with half-width 0 the source
executes `data[outlier_truth_matrix] = nan` on the caller's own array, which
ends as `[[nan]]` — different from the original `[[5]]`. -/
theorem c2_counterexample :
    detect 5 20 0 [[some 5]] none 2 = some ([[true]], [[none]]) ∧
      ([[none]] : Mat) ≠ [[some 5]] := by
  decide

/-- C2 (amended): after a terminating `detect` (either loop form), the
caller's 2-D array holds the original values with exactly the flagged
positions overwritten by NaN — so it is observably mutated whenever any point
is flagged, and unchanged otherwise.  (A 1-D input is first rebuilt into a
fresh single-column array by `np.reshape(np.array(...))`, so the caller's 1-D
sequence itself is never written to.) -/
theorem c2_amended_mutation (limit : ℚ) (cfgMin frame : ℕ) (data : Mat)
    (numIter : Option ℕ) (fuel : ℕ) (mask : List (List Bool)) (fin : Mat)
    (h : detect limit cfgMin frame data numIter fuel = some (mask, fin)) :
    fin = setNaN data mask := by
  cases numIter with
  | none =>
    rw [detect, Option.map_eq_some'] at h
    obtain ⟨⟨accF, finD⟩, hl, hf⟩ := h
    rw [Prod.mk.injEq] at hf
    obtain ⟨hm, hfin⟩ := hf
    have := loop_final_data limit cfgMin frame false fuel data data
      (zerosLike data) (zerosLike data) accF finD (zerosLike_shape data)
      (setNaN_toBool_zeros data).symm hl
    rw [← hfin, ← hm]
    exact this.2
  | some n =>
    rw [detect, Option.map_eq_some'] at h
    obtain ⟨⟨accF, finD⟩, hl, hf⟩ := h
    rw [Prod.mk.injEq] at hf
    obtain ⟨hm, hfin⟩ := hf
    have := loop_final_data limit cfgMin frame true n data data
      (zerosLike data) (zerosLike data) accF finD (zerosLike_shape data)
      (setNaN_toBool_zeros data).symm hl
    rw [← hfin, ← hm]
    exact this.2

/-- C2 amended witness: on the counterexample run the final caller-visible
array is exactly the original with the one flagged cell blanked. -/
theorem c2_amended_mutation_witness :
    ([[none]] : Mat) = setNaN [[some 5]] [[true]] :=
  c2_amended_mutation 5 20 0 [[some 5]] none 2 [[true]] [[none]] (by decide)

/-- C8: a successful `detect` returns a mask of exactly the processed data's
shape: same row count and row lengths for a 2-D input, and `n` rows of one
column for a 1-D input of length `n` (the single-column reshape). -/
theorem c8_result_shape (limit : ℚ) (cfgMin frame : ℕ) :
    (∀ (data : Mat) (numIter : Option ℕ) (fuel : ℕ) (mask : List (List Bool)) (fin : Mat),
      detect limit cfgMin frame data numIter fuel = some (mask, fin) →
      mask.length = data.length ∧ mask.map List.length = data.map List.length) ∧
    (∀ (series : List Cell) (numIter : Option ℕ) (fuel : ℕ) (mask : List (List Bool)) (fin : Mat),
      detect limit cfgMin frame (reshape1 series) numIter fuel = some (mask, fin) →
      mask.length = series.length ∧ ∀ row ∈ mask, row.length = 1) := by
  constructor
  · intro data numIter fuel mask fin h
    have hm := detect_shape limit cfgMin frame data numIter fuel mask fin h
    refine ⟨?_, hm⟩
    have := congrArg List.length hm
    simpa using this
  · intro series numIter fuel mask fin h
    have hm := detect_shape limit cfgMin frame (reshape1 series) numIter fuel mask fin h
    have hresh : (reshape1 series).map List.length = List.replicate series.length 1 := by
      rw [reshape1, List.map_map]
      have : (List.length ∘ fun v : Cell => [v]) = fun _ : Cell => 1 := rfl
      rw [this]
      simp
    rw [hresh] at hm
    constructor
    · have := congrArg List.length hm
      simpa using this
    · intro row hrow
      have : row.length ∈ List.replicate series.length 1 := by
        rw [← hm]
        exact List.mem_map_of_mem List.length hrow
      exact List.eq_of_mem_replicate this

/-- C8 witness: a 1-D all-missing series of length 1 yields a 1-by-1 mask. -/
theorem c8_result_shape_witness :
    ([[false]] : List (List Bool)).length = ([none] : List Cell).length ∧
      ∀ row ∈ ([[false]] : List (List Bool)), row.length = 1 :=
  (c8_result_shape 5 20 8).2 [none] none 1 [[false]] [[none]] (by decide)

/-- C4 (counterexample): the claim bounds the uncapped loop by
`rows * columns` sweeps; on the 1-by-1 matrix `[[5]]` with half-width 0 the
value 5 is flagged in sweep 1 (zero spread, strict inequalities) and a second
sweep is needed to observe the fixed point, so `rows * columns = 1` sweeps
are not enough. -/
theorem c4_counterexample :
    detect 5 20 0 [[some 5]] none (1 * 1) = none := by
  decide

/-- C4 (amended): `detect` with `maxIterations = None` always terminates, in
at most `rows * columns + 1` sweeps. -/
theorem c4_amended_termination (limit : ℚ) (cfgMin frame : ℕ) (data : Mat) (C : ℕ)
    (hwf : ∀ row ∈ data, row.length = C) :
    (detect limit cfgMin frame data none (data.length * C + 1)).isSome := by
  rw [detect, Option.isSome_map']
  apply loop_isSome_of_fuel
  have := totalCount_le_size data C hwf
  omega

/-- C4 amended witness: the counterexample matrix terminates with one extra
unit of fuel. -/
theorem c4_amended_termination_witness :
    (detect 5 20 0 [[some 5]] none (1 * 1 + 1)).isSome :=
  c4_amended_termination 5 20 0 [[some 5]] 1 (by decide)

theorem getD_none_of_all_none (row : List Cell) (h : ∀ v ∈ row, v = none) (i : ℕ) :
    row.getD i none = none := by
  rw [List.getD_eq_getElem?_getD]
  cases hx : row[i]? with
  | none => rfl
  | some v =>
    have hv := h v (List.getElem?_mem hx)
    simp [hv]

theorem frameCol_all_none (w : Mat) (hw : ∀ row ∈ w, ∀ v ∈ row, v = none) (i : ℕ) :
    ∀ v ∈ frameCol w i, v = none := by
  intro v hv
  rw [frameCol] at hv
  obtain ⟨row, hrow, rfl⟩ := List.mem_map.mp hv
  exact getD_none_of_all_none row (hw row hrow) i

theorem nonMissingCount_zero_of_all_none (col : List Cell) (h : ∀ v ∈ col, v = none) :
    nonMissingCount col = 0 := by
  rw [nonMissingCount, List.countP_eq_zero]
  intro v hv
  rw [h v hv]
  simp

theorem getD_map_zero (row : List Cell) : ∀ c : ℕ,
    (row.map (fun _ => (0 : ℕ))).getD c 0 = 0 := by
  induction row with
  | nil => intro c; cases c <;> rfl
  | cons v vs ih =>
    intro c
    cases c with
    | zero => rfl
    | succ c =>
      rw [List.map_cons, List.getD_cons_succ]
      exact ih c

theorem zerosLike_getD (data : Mat) : ∀ r c, ((zerosLike data).getD r []).getD c 0 = 0 := by
  induction data with
  | nil =>
    intro r c
    rw [zerosLike, List.map_nil]
    cases r <;> rfl
  | cons row rs ih =>
    intro r c
    cases r with
    | zero =>
      rw [zerosLike, List.map_cons, List.getD_cons_zero]
      exact getD_map_zero row c
    | succ r =>
      rw [zerosLike, List.map_cons, List.getD_cons_succ]
      exact ih r c

/-- C7: on an all-missing matrix the first sweep's mask is all-false (every
window count is 0, equal to the zeroed cache, so every cell is skipped), and
`detect` with `maxIterations = None` stops after that single sweep returning
the all-false cumulative mask with the working data untouched. -/
theorem c7_all_missing (limit : ℚ) (cfgMin frame : ℕ) (data : Mat) (C : ℕ)
    (hwf : ∀ row ∈ data, row.length = C)
    (hmiss : ∀ row ∈ data, ∀ v ∈ row, v = none) :
    (sweepMatrix limit cfgMin frame data (zerosLike data)).1
        = data.map (fun row => row.map (fun _ => false)) ∧
      detect limit cfgMin frame data none 1
        = some (data.map (fun row => row.map (fun _ => false)), data) := by
  have hL : (sweepMatrix limit cfgMin frame data (zerosLike data)).1
      = (List.range data.length).map (fun r =>
          sweepRowMask limit (min (2 * frame + 1) cfgMin) (windowAt frame data r)
            (data.getD r []) ((zerosLike data).getD r [])) := rfl
  have hsweep : (sweepMatrix limit cfgMin frame data (zerosLike data)).1
      = data.map (fun row => row.map (fun _ => false)) := by
    rw [hL]
    apply List.ext_getElem
    · simp
    · intro i h1 h2
      have hi : i < data.length := by simpa using h1
      rw [List.getElem_map, List.getElem_map, List.getElem_range]
      have hmem_w : ∀ row ∈ windowAt frame data i, ∀ v ∈ row, v = none :=
        fun row hr => hmiss row (windowAt_rows_mem frame data i row hr)
      have hCw : ((windowAt frame data i).headD []).length = C :=
        windowAt_head_length frame data hwf hi
      rw [sweepRowMask]
      have hfalse : ∀ c ∈ List.range ((windowAt frame data i).headD []).length,
          (if nonMissingCount (frameCol (windowAt frame data i) c)
              ≠ ((zerosLike data).getD i []).getD c 0 then
            is_outlier (frameCol (windowAt frame data i) c) ((data.getD i []).getD c none)
              limit (min (2 * frame + 1) cfgMin)
          else false) = (fun _ : ℕ => false) c := by
        intro c _
        rw [nonMissingCount_zero_of_all_none _
          (frameCol_all_none (windowAt frame data i) hmem_w c), zerosLike_getD]
        simp
      rw [List.map_congr_left hfalse]
      have h3 : (data[i]).length = C := hwf _ (List.getElem_mem hi)
      rw [List.map_const', List.map_const', List.length_range, hCw, h3]
  refine ⟨hsweep, ?_⟩
  have hz : sumMask (sweepMatrix limit cfgMin frame data (zerosLike data)).1 = 0 := by
    rw [hsweep, sumMask, List.map_map]
    apply List.sum_eq_zero
    intro x hx
    obtain ⟨row, hrow, rfl⟩ := List.mem_map.mp hx
    simp only [Function.comp_apply]
    rw [List.countP_eq_zero]
    intro b hb
    obtain ⟨v, hv, rfl⟩ := List.mem_map.mp hb
    simp
  have htb : toBoolMask (zerosLike data) = data.map (fun row => row.map (fun _ => false)) := by
    rw [toBoolMask, zerosLike, List.map_map]
    apply List.map_congr_left
    intro row _
    simp only [Function.comp_apply, List.map_map]
    rfl
  rw [detect, loop, if_pos hz, addMask_zero_mask _ _ hz, Option.map_some', htb]

/-- C7 witness: a concrete all-missing 2-by-1 matrix converges in one sweep
to the all-false mask. -/
theorem c7_all_missing_witness :
    detect 5 20 8 [[none], [none]] none 1
      = some ([[false], [false]], [[none], [none]]) := by
  have h := (c7_all_missing 5 20 8 [[none], [none]] 1 (by decide) (by decide)).2
  simpa using h

theorem getD_map_lt {α β : Type} (f : α → β) {l : List α} {k : ℕ}
    (hk : k < l.length) (d : β) (d' : α) :
    (l.map f).getD k d = f (l.getD k d') := by
  rw [List.getD_eq_getElem?_getD, List.getElem?_map, List.getElem?_eq_getElem hk,
    Option.map_some', Option.getD_some, List.getD_eq_getElem?_getD,
    List.getElem?_eq_getElem hk, Option.getD_some]

/-- C10: for every curve `(s, e)` the generator yields (at position `k`), the
recorded flag is `FUC_tests` of the value column sliced by `[s:e]` when
`e > s` — the slice stops before row `e`, holding exactly the `e - s` values
at indices `s .. e-1`, so the last measurement of a multi-point curve never
participates in the tests — while a one-point curve (`e = s`) has its end
widened so the tested slice is `[s:s+1]`. -/
theorem c10_curve_slices (series : List (ℤ × ℝ)) (gap : ℤ) (span_co2 : ℝ)
    (min_num_points : ℕ) (max_diff_from_span max_st_dev : ℝ) (ignoreFirst : Bool)
    (k s e : ℕ)
    (hk : k < (FUC_curve_generator (series.map Prod.fst) gap ignoreFirst).length)
    (hke : (FUC_curve_generator (series.map Prod.fst) gap ignoreFirst).getD k (0, 0)
      = (s, e)) :
    (s < e →
      (qc_FUC_timeseries series gap span_co2 min_num_points max_diff_from_span
          max_st_dev ignoreFirst).getD k (0, false)
        = ((series.map Prod.fst).getD s 0,
            FUC_tests (((series.map Prod.snd).take e).drop s)
              span_co2 min_num_points max_diff_from_span max_st_dev) ∧
      (e ≤ series.length →
        (((series.map Prod.snd).take e).drop s).length = e - s ∧
        ∀ j, j < e - s →
          (((series.map Prod.snd).take e).drop s).getD j 0
            = (series.map Prod.snd).getD (s + j) 0)) ∧
    (e = s →
      (qc_FUC_timeseries series gap span_co2 min_num_points max_diff_from_span
          max_st_dev ignoreFirst).getD k (0, false)
        = ((series.map Prod.fst).getD s 0,
            FUC_tests (((series.map Prod.snd).take (e + 1)).drop s)
              span_co2 min_num_points max_diff_from_span max_st_dev)) := by
  have hqc : (qc_FUC_timeseries series gap span_co2 min_num_points max_diff_from_span
      max_st_dev ignoreFirst).getD k (0, false)
      = ((series.map Prod.fst).getD s 0,
          FUC_tests
            (((series.map Prod.snd).take (if e - s = 0 then e + 1 else e)).drop s)
            span_co2 min_num_points max_diff_from_span max_st_dev) := by
    rw [qc_FUC_timeseries, getD_map_lt _ hk (0, false) (0, 0), hke]
  constructor
  · intro hse
    constructor
    · rw [hqc, if_neg (by omega)]
    · intro he
      constructor
      · rw [List.length_drop, List.length_take, List.length_map]
        omega
      · intro j hj
        rw [List.getD_eq_getElem?_getD, List.getElem?_drop, List.getElem?_take,
          if_pos (by omega), ← List.getD_eq_getElem?_getD]
  · intro hes
    rw [hqc, if_pos (by omega)]

/-- C10 witness: the concrete series `[(0,1),(1,2),(10,3),(11,4)]` with gap 5
splits into curves `(0,1)` and `(2,3)`; the first curve's flag is computed on
the value slice `[1]` — indices `0 .. 0`, excluding row 1. -/
theorem c10_curve_slices_witness :
    (qc_FUC_timeseries [(0, 1), (1, 2), (10, 3), (11, 4)] 5 450 1 5 2 false).getD 0 (0, false)
      = ((([(0, (1 : ℝ)), (1, 2), (10, 3), (11, 4)] : List (ℤ × ℝ)).map Prod.fst).getD 0 0,
          FUC_tests (((([(0, (1 : ℝ)), (1, 2), (10, 3), (11, 4)] : List (ℤ × ℝ)).map
              Prod.snd).take 1).drop 0) 450 1 5 2) :=
  ((c10_curve_slices [(0, 1), (1, 2), (10, 3), (11, 4)] 5 450 1 5 2 false 0 0 1
    (by decide) (by decide)).1 (by decide)).1

end QualityControl
